import Mathlib

/-!
Shallow embedding of the virtio crypto device manager
(virtio_crypto_mgr.c) and verification of its specification.

Handles (struct virtio_crypto pointers) are modelled as natural numbers;
pointer equality becomes equality of these identifiers.  The mutable
fields of a handle form the Device record, the global registry state
(list head, num_devices counter) forms the MgrState record.  The atomic
32-bit reference counter is modelled as ZMod (2^32), matching the
wrap-around arithmetic of atomic_add_return / atomic_sub_return; the
comparisons against 0 and 1 in the C code are equality tests on the
32-bit value, which is exactly equality in ZMod (2^32).
-/

namespace VCrypto

/-- Number of successful calls to an external collaborator is tracked so
that pin/unpin behaviour can be stated: pins counts successful
try_module_get calls on this device's owner, unpins counts module_put
calls. -/
structure Device where
  /-- atomic_t ref_count, a 32-bit wrap-around counter. -/
  ref_count : ZMod (2 ^ 32)
  /-- u32 dev_id assigned at registration. -/
  dev_id : Nat
  /-- u32 status bit mask. -/
  status : Nat
  /-- NUMA node of the underlying vdev->dev (dev_to_node), -1 means no
  locality. -/
  node : Int
  /-- count of successful try_module_get(owner) calls. -/
  pins : Nat
  /-- count of module_put(owner) calls. -/
  unpins : Nat

/-- Modelled from the spec: VIRTIO_CRYPTO_S_STARTED is the STARTED status
flag from virtio_crypto_common.h, which is not part of src/; the spec
describes status as an enum with a STARTED state, modelled as bit 0 of the
status mask. -/
def VIRTIO_CRYPTO_S_STARTED : Nat := 1

def VIRTIO_CRYPTO_MAX_DEVICES : Nat := 32

/-- Global state of the device manager: virtio_crypto_table (in insertion
order), the state of each handle, and the num_devices counter (uint32_t). -/
structure MgrState where
  table : List Nat
  devs : Nat → Device
  num_devices : Nat

/-- Pointwise update of the handle state map. -/
def setDev (f : Nat → Device) (h : Nat) (d : Device) : Nat → Device :=
  fun k => if k = h then d else f k

theorem setDev_same (f : Nat → Device) (h : Nat) (d : Device) : setDev f h d h = d := by
  simp [setDev]

theorem setDev_other (f : Nat → Device) (h : Nat) (d : Device) (k : Nat) (hne : k ≠ h) :
    setDev f h d k = f k := by
  simp [setDev, hne]

/-- Initial state: empty table, counter 0, every handle in some arbitrary
initial device state d. -/
def initState (d : Device) : MgrState :=
  { table := [], devs := fun _ => d, num_devices := 0 }

/-- Error outcomes of virtcrypto_devmgr_add_dev: -EFAULT when the device
limit is reached, -EEXIST when the handle is already in the table. -/
inductive AddErr where
  | CapacityExceeded : AddErr
  | AlreadyExists : AddErr
deriving DecidableEq, Repr

/-- virtcrypto_devmgr_add_dev: reject when num_devices equals
VIRTIO_CRYPTO_MAX_DEVICES; reject when the handle is already in the list;
otherwise set ref_count to 0, append to the table and assign
dev_id = num_devices++ (uint32_t increment). -/
def virtcrypto_devmgr_add_dev (s : MgrState) (h : Nat) : Except AddErr MgrState :=
  if s.num_devices = VIRTIO_CRYPTO_MAX_DEVICES then
    .error .CapacityExceeded
  else if h ∈ s.table then
    .error .AlreadyExists
  else
    .ok { s with
          devs := setDev s.devs h
            { s.devs h with ref_count := 0, dev_id := s.num_devices },
          table := s.table ++ [h],
          num_devices := (s.num_devices + 1) % 2 ^ 32 }

/-- Error projection of an add result. -/
def addErr (r : Except AddErr MgrState) : Option AddErr :=
  match r with
  | .ok _ => none
  | .error e => some e

/-- virtcrypto_devmgr_rm_dev: list_del plus uint32_t decrement of
num_devices.  list_del requires the handle to be linked into the table;
List.erase removes that (unique) occurrence. -/
def virtcrypto_devmgr_rm_dev (s : MgrState) (h : Nat) : MgrState :=
  { s with
    table := s.table.erase h,
    num_devices := (s.num_devices + (2 ^ 32 - 1)) % 2 ^ 32 }

/-- virtcrypto_devmgr_get_first: first entry of the table, if any. -/
def virtcrypto_devmgr_get_first (s : MgrState) : Option Nat :=
  s.table.head?

/-- virtcrypto_dev_in_use: ref_count != 0. -/
def virtcrypto_dev_in_use (d : Device) : Bool :=
  d.ref_count ≠ 0

/-- Error outcome of virtcrypto_dev_get: -EFAULT when try_module_get
fails on the 0 to 1 transition. -/
inductive GetErr where
  | PinFailed : GetErr
deriving DecidableEq, Repr

/-- virtcrypto_dev_get: atomic_add_return(1, ref_count); when the result
equals 1 attempt try_module_get (whose success is the environment input
pinOk); on pin failure return -EFAULT.  The increment is kept in every
branch, exactly as in the source. -/
def virtcrypto_dev_get (pinOk : Bool) (d : Device) : Device × Option GetErr :=
  let r := d.ref_count + 1
  if r = 1 then
    if pinOk then
      ({ d with ref_count := r, pins := d.pins + 1 }, none)
    else
      ({ d with ref_count := r }, some .PinFailed)
  else
    ({ d with ref_count := r }, none)

/-- virtcrypto_dev_put: atomic_sub_return(1, ref_count); when the result
equals 0, module_put. -/
def virtcrypto_dev_put (d : Device) : Device :=
  let r := d.ref_count - 1
  if r = 0 then
    { d with ref_count := r, unpins := d.unpins + 1 }
  else
    { d with ref_count := r }

/-- virtcrypto_dev_started: status & VIRTIO_CRYPTO_S_STARTED, as a
truth value. -/
def virtcrypto_dev_started (d : Device) : Bool :=
  d.status &&& VIRTIO_CRYPTO_S_STARTED ≠ 0

/-- Error outcome of virtcrypto_dev_start: -EFAULT when
virtio_crypto_algs_register fails. -/
inductive StartErr where
  | RegistrationFailed : StartErr
deriving DecidableEq, Repr

/-- virtcrypto_dev_start: call virtio_crypto_algs_register (whose success
is the environment input regOk); on failure return -EFAULT leaving the
device untouched; on success set the STARTED bit. -/
def virtcrypto_dev_start (regOk : Bool) (d : Device) : Device × Option StartErr :=
  if regOk then
    ({ d with status := d.status ||| VIRTIO_CRYPTO_S_STARTED }, none)
  else
    (d, some .RegistrationFailed)

/-- virtcrypto_dev_stop: virtio_crypto_algs_unregister (no observable
effect on this state), then clear the STARTED bit (u32 complement of the
flag). -/
def virtcrypto_dev_stop (d : Device) : Device :=
  { d with status := d.status &&& (2 ^ 32 - 1 - VIRTIO_CRYPTO_S_STARTED) }

/-- ~0UL of the selection loop: unsigned long all-ones on a 64-bit
kernel. -/
def ULONG_MAX : Nat := 2 ^ 64 - 1

/-- Value of the signed int read by atomic_read, for a 32-bit two's
complement ref_count. -/
def toSigned32 (r : ZMod (2 ^ 32)) : Int :=
  if r.val < 2 ^ 31 then (r.val : Int) else (r.val : Int) - 2 ^ 32

/-- Conversion of the signed atomic_read result to unsigned long (64-bit),
as in the assignment ctr = atomic_read(&tmp_dev->ref_count). -/
def ctrOf (r : ZMod (2 ^ 32)) : Nat :=
  ((toSigned32 r) % (2 ^ 64 : Int)).toNat

/-- Loop condition of the first scan in virtcrypto_get_dev_node:
(node == dev_to_node(&tmp_dev->vdev->dev) || dev_to_node(...) < 0) &&
virtcrypto_dev_started(tmp_dev). -/
def candB (s : MgrState) (node : Int) (h : Nat) : Bool :=
  (node == (s.devs h).node || (s.devs h).node < 0) && virtcrypto_dev_started (s.devs h)

/-- Body of the first scan: keep the current best (vcrypto_dev, best) and
replace it when a candidate has a strictly smaller ctr. -/
def selStep (s : MgrState) (node : Int) (acc : Option Nat × Nat) (h : Nat) :
    Option Nat × Nat :=
  if candB s node h then
    if acc.2 > ctrOf ((s.devs h).ref_count) then (some h, ctrOf ((s.devs h).ref_count))
    else acc
  else acc

/-- Result of virtcrypto_get_dev_node before the final dev_get: the first
scan starting from (NULL, ~0), then the fallback scan for any started
device. -/
def selectDev (s : MgrState) (node : Int) : Option Nat :=
  match (s.table.foldl (selStep s node) (none, ULONG_MAX)).1 with
  | some h => some h
  | none => s.table.find? (fun h => virtcrypto_dev_started (s.devs h))

/-- virtcrypto_get_dev_node: select a device, and when one is found call
virtcrypto_dev_get on it, discarding the return value of that call
exactly as the source does. -/
def virtcrypto_get_dev_node (s : MgrState) (node : Int) (pinOk : Bool) :
    Option Nat × MgrState :=
  match selectDev s node with
  | none => (none, s)
  | some h =>
      (some h, { s with devs := setDev s.devs h (virtcrypto_dev_get pinOk (s.devs h)).1 })

/-- Registry operations for whole-run statements. -/
inductive MgrOp where
  | add : Nat → MgrOp
  | rm : Nat → MgrOp
deriving DecidableEq, Repr

def MgrOp.isAdd : MgrOp → Bool
  | .add _ => true
  | .rm _ => false

/-- One registry operation; a failed add leaves the state untouched
(nothing was mutated before the error return in the source). -/
def runOp (s : MgrState) : MgrOp → MgrState
  | .add h =>
      match virtcrypto_devmgr_add_dev s h with
      | .ok s' => s'
      | .error _ => s
  | .rm h => virtcrypto_devmgr_rm_dev s h

def runOps (s : MgrState) (ops : List MgrOp) : MgrState :=
  ops.foldl runOp s

/-- Device state with all fields zero, node 0. -/
def D0 : Device :=
  { ref_count := 0, dev_id := 0, status := 0, node := 0, pins := 0, unpins := 0 }

/-- C2: a handle with ref_count 0 on which acquire runs with a failing
module pin: virtcrypto_dev_get returns the PinFailed error, yet the
reference count stays at 1 (the increment is not rolled back). -/
theorem dev_get_pin_fail_no_rollback (d : Device) (h0 : d.ref_count = 0) :
    (virtcrypto_dev_get false d).2 = some GetErr.PinFailed ∧
    (virtcrypto_dev_get false d).1.ref_count = 1 := by
  simp [virtcrypto_dev_get, h0]

/-- C2 witness: the concrete idle device D0. -/
theorem dev_get_pin_fail_no_rollback_witness :
    D0.ref_count = 0 ∧
    ((virtcrypto_dev_get false D0).2 = some GetErr.PinFailed ∧
     (virtcrypto_dev_get false D0).1.ref_count = 1) :=
  ⟨rfl, dev_get_pin_fail_no_rollback D0 rfl⟩

/-- C9: virtcrypto_dev_start returns the registration error and leaves the
device (in particular its status) unchanged when virtio_crypto_algs_register
fails, and on success returns no error and the device is started. -/
theorem dev_start_spec (d : Device) :
    ((virtcrypto_dev_start false d).2 = some StartErr.RegistrationFailed ∧
     (virtcrypto_dev_start false d).1 = d) ∧
    ((virtcrypto_dev_start true d).2 = none ∧
     virtcrypto_dev_started (virtcrypto_dev_start true d).1 = true) := by
  refine ⟨⟨rfl, rfl⟩, rfl, ?_⟩
  simp [virtcrypto_dev_started, virtcrypto_dev_start, VIRTIO_CRYPTO_S_STARTED]

/-- C10: whenever virtcrypto_devmgr_add_dev returns an error, the whole
manager state (table membership and order, num_devices, and every
handle's fields, dev_id and ref_count included) is unchanged: nothing is
mutated before either error return in the source. -/
theorem add_error_atomic (s : MgrState) (h : Nat)
    (herr : addErr (virtcrypto_devmgr_add_dev s h) ≠ none) :
    runOp s (MgrOp.add h) = s := by
  cases hres : virtcrypto_devmgr_add_dev s h with
  | ok s' => exact absurd (by simp [addErr, hres]) herr
  | error e => simp [runOp, hres]

/-- Registry holding the single handle 1: used as a concrete state for
error-path witnesses. -/
def sOne : MgrState := runOps (initState D0) [MgrOp.add 1]

/-- C10 witness: adding handle 1 again to the registry already holding it
errors out and leaves the state unchanged. -/
theorem add_error_atomic_witness :
    addErr (virtcrypto_devmgr_add_dev sOne 1) ≠ none ∧
    runOp sOne (MgrOp.add 1) = sOne :=
  ⟨by decide, add_error_atomic sOne 1 (by decide)⟩

/-- Registry filled to capacity with handles 0..31. -/
def sFull : MgrState := runOps (initState D0) ((List.range 32).map MgrOp.add)

/-- C7 counterexample: in the full registry, handle 0 is present, yet
re-adding it fails with CapacityExceeded, not AlreadyExists: the capacity
check precedes the duplicate scan in the source. -/
theorem add_duplicate_at_capacity_counterexample :
    0 ∈ sFull.table ∧
    addErr (virtcrypto_devmgr_add_dev sFull 0) = some AddErr.CapacityExceeded := by
  decide

/-- C7 amended: adding a handle already present fails, with AlreadyExists
when the table is below capacity and with CapacityExceeded when it is
full, and in either case the state (hence the table, with its single
entry for the handle) is unchanged. -/
theorem add_duplicate_rejected (s : MgrState) (h : Nat) (hmem : h ∈ s.table) :
    addErr (virtcrypto_devmgr_add_dev s h) =
      some (if s.num_devices = VIRTIO_CRYPTO_MAX_DEVICES then
              AddErr.CapacityExceeded else AddErr.AlreadyExists) ∧
    runOp s (MgrOp.add h) = s := by
  constructor
  · by_cases hc : s.num_devices = VIRTIO_CRYPTO_MAX_DEVICES <;>
      simp [virtcrypto_devmgr_add_dev, addErr, hc, hmem]
  · apply add_error_atomic
    by_cases hc : s.num_devices = VIRTIO_CRYPTO_MAX_DEVICES <;>
      simp [virtcrypto_devmgr_add_dev, addErr, hc, hmem]

/-- C7 amended witness: re-adding handle 1 to the one-element registry. -/
theorem add_duplicate_rejected_witness :
    1 ∈ sOne.table ∧
    (addErr (virtcrypto_devmgr_add_dev sOne 1) =
      some (if sOne.num_devices = VIRTIO_CRYPTO_MAX_DEVICES then
              AddErr.CapacityExceeded else AddErr.AlreadyExists) ∧
     runOp sOne (MgrOp.add 1) = sOne) :=
  ⟨by decide, add_duplicate_rejected sOne 1 (by decide)⟩

/-- C1 counterexample: ids are reused while the registry is non-empty.
After add 10 (id 0), add 20 (id 1), remove 10, the counter num_devices is
back to 1, so adding 30 succeeds and assigns it dev_id 1 — the id of
handle 20, which is still in the table. -/
theorem dev_id_reuse_counterexample :
    addErr (virtcrypto_devmgr_add_dev
      (runOps (initState D0) [MgrOp.add 10, MgrOp.add 20, MgrOp.rm 10]) 30) = none ∧
    20 ∈ (runOps (initState D0) [MgrOp.add 10, MgrOp.add 20, MgrOp.rm 10, MgrOp.add 30]).table ∧
    30 ∈ (runOps (initState D0) [MgrOp.add 10, MgrOp.add 20, MgrOp.rm 10, MgrOp.add 30]).table ∧
    ((runOps (initState D0) [MgrOp.add 10, MgrOp.add 20, MgrOp.rm 10, MgrOp.add 30]).devs 30).dev_id =
      ((runOps (initState D0) [MgrOp.add 10, MgrOp.add 20, MgrOp.rm 10, MgrOp.add 30]).devs 20).dev_id := by
  decide

/-- Invariant of add-only runs: the counter matches the table length,
stays within capacity, and every registered handle's id is below the
counter. -/
def IdInv (s : MgrState) : Prop :=
  s.num_devices = s.table.length ∧ s.table.length ≤ VIRTIO_CRYPTO_MAX_DEVICES ∧
  ∀ g ∈ s.table, (s.devs g).dev_id < s.num_devices

theorem IdInv_initState (d : Device) : IdInv (initState d) := by
  refine ⟨rfl, by simp [initState, VIRTIO_CRYPTO_MAX_DEVICES], ?_⟩
  simp [initState]

theorem IdInv_add (s : MgrState) (h : Nat) (hs : IdInv s) :
    IdInv (runOp s (MgrOp.add h)) := by
  obtain ⟨hnum, hcap, hids⟩ := hs
  have hM : VIRTIO_CRYPTO_MAX_DEVICES = 32 := rfl
  cases hres : virtcrypto_devmgr_add_dev s h with
  | error e => simpa [runOp, hres] using ⟨hnum, hcap, hids⟩
  | ok s' =>
      have hres0 := hres
      unfold virtcrypto_devmgr_add_dev at hres
      by_cases hfull : s.num_devices = VIRTIO_CRYPTO_MAX_DEVICES
      · rw [if_pos hfull] at hres; cases hres
      by_cases hmem : h ∈ s.table
      · rw [if_neg hfull, if_pos hmem] at hres; cases hres
      rw [if_neg hfull, if_neg hmem] at hres
      obtain rfl := Except.ok.inj hres
      rw [hM] at hcap hfull
      have hlt : s.table.length < 32 := by omega
      have hmod : (s.num_devices + 1) % 2 ^ 32 = s.num_devices + 1 := by
        apply Nat.mod_eq_of_lt
        omega
      simp only [runOp, hres0]
      refine ⟨?_, ?_, ?_⟩
      · simp only [hnum, List.length_append, List.length_singleton]
        omega
      · simp only [List.length_append, List.length_singleton, hM]
        omega
      · intro g hg
        simp only [hmod]
        rcases List.mem_append.mp hg with hg' | hg'
        · have hne : g ≠ h := fun he => hmem (he ▸ hg')
          rw [setDev_other _ _ _ _ hne]
          have := hids g hg'
          omega
        · have hgh : g = h := by simpa using hg'
          subst hgh
          rw [setDev_same]
          show s.num_devices < s.num_devices + 1
          omega

theorem IdInv_runOps_addOnly (d : Device) (ops : List MgrOp)
    (hadd : ∀ op ∈ ops, op.isAdd = true) : IdInv (runOps (initState d) ops) := by
  suffices H : ∀ s, IdInv s → IdInv (runOps s ops) from H _ (IdInv_initState d)
  induction ops with
  | nil => intro s hs; exact hs
  | cons op t ih =>
      intro s hs
      have hop : op.isAdd = true := hadd op (by simp)
      have ht : ∀ op ∈ t, op.isAdd = true := fun o ho => hadd o (by simp [ho])
      cases op with
      | add h =>
          exact ih ht _ (IdInv_add s h hs)
      | rm h => simp [MgrOp.isAdd] at hop

/-- C1 amended: in any sequence of adds (no removes) starting from an
empty registry, a successful add never assigns to the new handle an id
equal to the id of any handle present in the table; once a remove has
happened an add can reuse the id of a still-present handle (see the
counterexample). -/
theorem add_only_ids_unique (d : Device) (ops : List MgrOp) (h : Nat)
    (hadd : ∀ op ∈ ops, op.isAdd = true)
    (hok : addErr (virtcrypto_devmgr_add_dev (runOps (initState d) ops) h) = none) :
    ∀ g ∈ (runOps (initState d) ops).table,
      ((runOp (runOps (initState d) ops) (MgrOp.add h)).devs h).dev_id ≠
        ((runOps (initState d) ops).devs g).dev_id := by
  set s := runOps (initState d) ops with hsdef
  have hinv : IdInv s := IdInv_runOps_addOnly d ops hadd
  obtain ⟨hnum, hcap, hids⟩ := hinv
  intro g hg
  cases hres : virtcrypto_devmgr_add_dev s h with
  | error e => simp [addErr, hres] at hok
  | ok s' =>
      have hres0 := hres
      unfold virtcrypto_devmgr_add_dev at hres
      by_cases hfull : s.num_devices = VIRTIO_CRYPTO_MAX_DEVICES
      · rw [if_pos hfull] at hres; cases hres
      by_cases hmem : h ∈ s.table
      · rw [if_neg hfull, if_pos hmem] at hres; cases hres
      rw [if_neg hfull, if_neg hmem] at hres
      obtain rfl := Except.ok.inj hres
      simp only [runOp, hres0]
      rw [setDev_same]
      show s.num_devices ≠ (s.devs g).dev_id
      have := hids g hg
      omega

/-- C1 amended witness: after adds of handles 1 and 2, adding 3 succeeds
and its id differs from the ids of 1 and 2. -/
theorem add_only_ids_unique_witness :
    (∀ op ∈ [MgrOp.add 1, MgrOp.add 2], op.isAdd = true) ∧
    addErr (virtcrypto_devmgr_add_dev
      (runOps (initState D0) [MgrOp.add 1, MgrOp.add 2]) 3) = none ∧
    ∀ g ∈ (runOps (initState D0) [MgrOp.add 1, MgrOp.add 2]).table,
      ((runOp (runOps (initState D0) [MgrOp.add 1, MgrOp.add 2]) (MgrOp.add 3)).devs 3).dev_id ≠
        ((runOps (initState D0) [MgrOp.add 1, MgrOp.add 2]).devs g).dev_id :=
  ⟨by decide, by decide,
   add_only_ids_unique D0 [MgrOp.add 1, MgrOp.add 2] 3 (by decide) (by decide)⟩

/-- Run of a list of adds recording, for each call, either the id the new
device was assigned or the error returned. -/
def addSeq : MgrState → List Nat → List (Except AddErr Nat) × MgrState
  | s, [] => ([], s)
  | s, h :: t =>
    match virtcrypto_devmgr_add_dev s h with
    | .ok s' =>
        let r := addSeq s' t
        (.ok ((s'.devs h).dev_id) :: r.1, r.2)
    | .error e =>
        let r := addSeq s t
        (.error e :: r.1, r.2)

/-- Expected result list of a run of successful adds: ids a, a+1, ... -/
def okIds : Nat → Nat → List (Except AddErr Nat)
  | _, 0 => []
  | a, n + 1 => .ok a :: okIds (a + 1) n

theorem addSeq_ok (hs : List Nat) :
    ∀ s : MgrState, s.num_devices = s.table.length →
      s.table.length + hs.length ≤ VIRTIO_CRYPTO_MAX_DEVICES →
      hs.Nodup → (∀ h ∈ hs, h ∉ s.table) →
      (addSeq s hs).1 = okIds s.table.length hs.length ∧
      (addSeq s hs).2.table = s.table ++ hs ∧
      (addSeq s hs).2.num_devices = s.num_devices + hs.length := by
  induction hs with
  | nil => intro s _ _ _ _; exact ⟨rfl, by simp [addSeq], by simp [addSeq]⟩
  | cons h t ih =>
      intro s hnum hcap hnd hfresh
      have hM : VIRTIO_CRYPTO_MAX_DEVICES = 32 := rfl
      rw [hM] at hcap
      have hfull : ¬ s.num_devices = VIRTIO_CRYPTO_MAX_DEVICES := by
        rw [hM]; simp only [List.length_cons] at hcap; omega
      have hmem : h ∉ s.table := hfresh h (by simp)
      have hres : virtcrypto_devmgr_add_dev s h =
          .ok { s with
                devs := setDev s.devs h
                  { s.devs h with ref_count := 0, dev_id := s.num_devices },
                table := s.table ++ [h],
                num_devices := (s.num_devices + 1) % 2 ^ 32 } := by
        unfold virtcrypto_devmgr_add_dev
        rw [if_neg hfull, if_neg hmem]
      have hmod : (s.num_devices + 1) % 2 ^ 32 = s.num_devices + 1 := by
        apply Nat.mod_eq_of_lt
        simp only [List.length_cons] at hcap
        omega
      have hid : (setDev s.devs h
          { s.devs h with ref_count := 0, dev_id := s.num_devices } h).dev_id =
          s.num_devices := by
        rw [setDev_same]
      have hlen1 : (s.table ++ [h]).length = s.table.length + 1 := by simp
      obtain ⟨ih1, ih2, ih3⟩ := ih
        { s with
          devs := setDev s.devs h
            { s.devs h with ref_count := 0, dev_id := s.num_devices },
          table := s.table ++ [h],
          num_devices := (s.num_devices + 1) % 2 ^ 32 }
        (by simp only [hmod, hlen1]; omega)
        (by rw [hM]; simp only [hlen1, List.length_cons] at hcap ⊢; omega)
        (List.Nodup.of_cons hnd)
        (by
          intro g hg
          simp only [List.mem_append, List.mem_singleton]
          push_neg
          refine ⟨fun hc => hfresh g (by simp [hg]) hc, ?_⟩
          intro hgh
          exact (List.nodup_cons.mp hnd).1 (hgh ▸ hg))
      refine ⟨?_, ?_, ?_⟩
      · simp only [addSeq, hres, List.length_cons]
        rw [ih1, hid, hnum]
        simp only [hlen1, okIds]
      · simp only [addSeq, hres]
        rw [ih2]
        simp
      · simp only [addSeq, hres, List.length_cons]
        rw [ih3]
        simp only [hmod]
        omega

/-- C6: starting from an empty registry, a sequence of adds of distinct
handles of length at most VIRTIO_CRYPTO_MAX_DEVICES succeeds at every
step, assigning the strictly increasing ids 0, 1, 2, ...; and when the
sequence has filled all 32 slots, the next add (of any handle) fails with
CapacityExceeded. -/
theorem add_capacity_sequence (d : Device) (hs : List Nat) (h : Nat)
    (hnd : hs.Nodup) (hlen : hs.length ≤ VIRTIO_CRYPTO_MAX_DEVICES) :
    (addSeq (initState d) hs).1 = okIds 0 hs.length ∧
    (hs.length = VIRTIO_CRYPTO_MAX_DEVICES →
      addErr (virtcrypto_devmgr_add_dev (addSeq (initState d) hs).2 h) =
        some AddErr.CapacityExceeded) := by
  obtain ⟨h1, h2, h3⟩ := addSeq_ok hs (initState d) rfl (by simpa [initState] using hlen)
    hnd (by simp [initState])
  refine ⟨by simpa [initState] using h1, ?_⟩
  intro hfull
  have : (addSeq (initState d) hs).2.num_devices = VIRTIO_CRYPTO_MAX_DEVICES := by
    rw [h3, hfull]; simp [initState]
  unfold virtcrypto_devmgr_add_dev
  rw [if_pos this]
  rfl

/-- C6 witness: the 32 distinct handles 0..31 all get added with ids
0..31 and the 33rd add fails. -/
theorem add_capacity_sequence_witness :
    (List.range 32).Nodup ∧ (List.range 32).length ≤ VIRTIO_CRYPTO_MAX_DEVICES ∧
    ((addSeq (initState D0) (List.range 32)).1 = okIds 0 (List.range 32).length ∧
     ((List.range 32).length = VIRTIO_CRYPTO_MAX_DEVICES →
       addErr (virtcrypto_devmgr_add_dev (addSeq (initState D0) (List.range 32)).2 99) =
         some AddErr.CapacityExceeded)) :=
  ⟨by decide, by decide, add_capacity_sequence D0 (List.range 32) 99 (by decide) (by decide)⟩

/-- Lifecycle operations on one device: an acquire (with the success of
try_module_get as environment input) or a release. -/
inductive RefOp where
  | acq : Bool → RefOp
  | rel : RefOp
deriving DecidableEq, Repr

def RefOp.isAcq : RefOp → Bool
  | .acq _ => true
  | .rel => false

def refStep (d : Device) : RefOp → Device
  | .acq p => (virtcrypto_dev_get p d).1
  | .rel => virtcrypto_dev_put d

def runRef (d : Device) (ops : List RefOp) : Device :=
  ops.foldl refStep d

/-- Number of steps of the run at which an acquire moves the counter from
0 to 1 (that is, the incremented value is 1). -/
def upTrans : ZMod (2 ^ 32) → List RefOp → Nat
  | _, [] => 0
  | r, .acq _ :: t => (if r + 1 = 1 then 1 else 0) + upTrans (r + 1) t
  | r, .rel :: t => upTrans (r - 1) t

/-- Number of steps of the run at which a release moves the counter from
1 to 0 (that is, the decremented value is 0). -/
def downTrans : ZMod (2 ^ 32) → List RefOp → Nat
  | _, [] => 0
  | r, .acq _ :: t => downTrans (r + 1) t
  | r, .rel :: t => (if r - 1 = 0 then 1 else 0) + downTrans (r - 1) t

theorem dev_get_ref (p : Bool) (d : Device) :
    (virtcrypto_dev_get p d).1.ref_count = d.ref_count + 1 := by
  unfold virtcrypto_dev_get
  by_cases hr : d.ref_count + 1 = 1 <;> by_cases hp : p <;> simp [hr, hp]

theorem dev_get_pins (d : Device) :
    (virtcrypto_dev_get true d).1.pins =
      d.pins + (if d.ref_count + 1 = 1 then 1 else 0) := by
  unfold virtcrypto_dev_get
  by_cases hr : d.ref_count + 1 = 1 <;> simp [hr]

theorem dev_get_unpins (p : Bool) (d : Device) :
    (virtcrypto_dev_get p d).1.unpins = d.unpins := by
  unfold virtcrypto_dev_get
  by_cases hr : d.ref_count + 1 = 1 <;> by_cases hp : p <;> simp [hr, hp]

theorem dev_put_ref (d : Device) :
    (virtcrypto_dev_put d).ref_count = d.ref_count - 1 := by
  unfold virtcrypto_dev_put
  by_cases hr : d.ref_count - 1 = 0 <;> simp [hr]

theorem dev_put_pins (d : Device) : (virtcrypto_dev_put d).pins = d.pins := by
  unfold virtcrypto_dev_put
  by_cases hr : d.ref_count - 1 = 0 <;> simp [hr]

theorem dev_put_unpins (d : Device) :
    (virtcrypto_dev_put d).unpins =
      d.unpins + (if d.ref_count - 1 = 0 then 1 else 0) := by
  unfold virtcrypto_dev_put
  by_cases hr : d.ref_count - 1 = 0 <;> simp [hr]

theorem runRef_ref (ops : List RefOp) :
    ∀ d : Device, (runRef d ops).ref_count =
      d.ref_count + (ops.countP RefOp.isAcq : ZMod (2 ^ 32)) -
        (ops.countP (fun o => ! o.isAcq) : ZMod (2 ^ 32)) := by
  induction ops with
  | nil => intro d; simp [runRef]
  | cons op t ih =>
      intro d
      have hstep : runRef d (op :: t) = runRef (refStep d op) t := rfl
      rw [hstep, ih]
      cases op with
      | acq p =>
          simp only [refStep, dev_get_ref, List.countP_cons, RefOp.isAcq,
            Bool.not_true, if_true, if_false]
          push_cast
          ring
      | rel =>
          simp only [refStep, dev_put_ref, List.countP_cons, RefOp.isAcq,
            Bool.not_false, if_true, if_false]
          push_cast
          ring

theorem runRef_pins (ops : List RefOp)
    (hpins : ∀ op ∈ ops, op = RefOp.rel ∨ op = RefOp.acq true) :
    ∀ d : Device, (runRef d ops).pins = d.pins + upTrans d.ref_count ops := by
  induction ops with
  | nil => intro d; simp [runRef, upTrans]
  | cons op t ih =>
      intro d
      have hstep : runRef d (op :: t) = runRef (refStep d op) t := rfl
      have ht : ∀ op ∈ t, op = RefOp.rel ∨ op = RefOp.acq true :=
        fun o ho => hpins o (by simp [ho])
      rw [hstep]
      cases op with
      | acq p =>
          have hp : p = true := by
            rcases hpins (RefOp.acq p) (by simp) with hc | hc
            · cases hc
            · injection hc
          subst hp
          rw [ih ht]
          simp only [refStep, upTrans, dev_get_pins, dev_get_ref]
          omega
      | rel =>
          rw [ih ht]
          simp only [refStep, upTrans, dev_put_pins, dev_put_ref]

theorem runRef_unpins (ops : List RefOp) :
    ∀ d : Device, (runRef d ops).unpins = d.unpins + downTrans d.ref_count ops := by
  induction ops with
  | nil => intro d; simp [runRef, downTrans]
  | cons op t ih =>
      intro d
      have hstep : runRef d (op :: t) = runRef (refStep d op) t := rfl
      rw [hstep]
      cases op with
      | acq p =>
          rw [ih]
          simp only [refStep, downTrans, dev_get_unpins, dev_get_ref]
      | rel =>
          rw [ih]
          simp only [refStep, downTrans, dev_put_unpins, dev_put_ref]
          omega

/-- C8: a sequence with as many acquires as releases, in any order, brings
ref_count back to its initial value; and (when every attempted pin
succeeds) the module is pinned exactly once per transition of the counter
to 1 by an acquire, and unpinned exactly once per transition to 0 by a
release. -/
theorem refcount_pairing (d : Device) (ops : List RefOp)
    (hpair : ops.countP RefOp.isAcq = ops.countP (fun o => ! o.isAcq))
    (hpins : ∀ op ∈ ops, op = RefOp.rel ∨ op = RefOp.acq true) :
    (runRef d ops).ref_count = d.ref_count ∧
    (runRef d ops).pins = d.pins + upTrans d.ref_count ops ∧
    (runRef d ops).unpins = d.unpins + downTrans d.ref_count ops := by
  refine ⟨?_, runRef_pins ops hpins d, runRef_unpins ops d⟩
  rw [runRef_ref, hpair]
  ring

/-- C8 witness: two nested acquire/release pairs on an idle device: the
counter returns to 0, the module is pinned once and unpinned once. -/
theorem refcount_pairing_witness :
    ([RefOp.acq true, RefOp.acq true, RefOp.rel, RefOp.rel].countP RefOp.isAcq =
      [RefOp.acq true, RefOp.acq true, RefOp.rel, RefOp.rel].countP (fun o => ! o.isAcq)) ∧
    (∀ op ∈ [RefOp.acq true, RefOp.acq true, RefOp.rel, RefOp.rel],
      op = RefOp.rel ∨ op = RefOp.acq true) ∧
    ((runRef D0 [RefOp.acq true, RefOp.acq true, RefOp.rel, RefOp.rel]).ref_count =
        D0.ref_count ∧
     (runRef D0 [RefOp.acq true, RefOp.acq true, RefOp.rel, RefOp.rel]).pins =
        D0.pins + upTrans D0.ref_count [RefOp.acq true, RefOp.acq true, RefOp.rel, RefOp.rel] ∧
     (runRef D0 [RefOp.acq true, RefOp.acq true, RefOp.rel, RefOp.rel]).unpins =
        D0.unpins + downTrans D0.ref_count [RefOp.acq true, RefOp.acq true, RefOp.rel, RefOp.rel]) :=
  ⟨by decide, by decide,
   refcount_pairing D0 [RefOp.acq true, RefOp.acq true, RefOp.rel, RefOp.rel]
     (by decide) (by decide)⟩

/-- Recursive description of the first scan: the first candidate with the
minimum ctr value (a later candidate replaces the current best only when
strictly smaller, so ties go to the earlier one). -/
def pickMin (s : MgrState) (node : Int) : List Nat → Option (Nat × Nat)
  | [] => none
  | h :: t =>
    if candB s node h then
      match pickMin s node t with
      | none => some (h, ctrOf ((s.devs h).ref_count))
      | some (g, c) =>
          if ctrOf ((s.devs h).ref_count) ≤ c then some (h, ctrOf ((s.devs h).ref_count))
          else some (g, c)
    else pickMin s node t

theorem pickMin_cons_pos (s : MgrState) (node : Int) (h : Nat) (t : List Nat)
    (hc : candB s node h = true) :
    pickMin s node (h :: t) =
      match pickMin s node t with
      | none => some (h, ctrOf ((s.devs h).ref_count))
      | some (g, c) =>
          if ctrOf ((s.devs h).ref_count) ≤ c then some (h, ctrOf ((s.devs h).ref_count))
          else some (g, c) := by
  simp [pickMin, hc]

theorem pickMin_cons_neg (s : MgrState) (node : Int) (h : Nat) (t : List Nat)
    (hc : candB s node h = false) :
    pickMin s node (h :: t) = pickMin s node t := by
  simp [pickMin, hc]

theorem selStep_take (s : MgrState) (node : Int) (o : Option Nat) (b : Nat) (h : Nat)
    (hc : candB s node h = true) (hb : b > ctrOf ((s.devs h).ref_count)) :
    selStep s node (o, b) h = (some h, ctrOf ((s.devs h).ref_count)) := by
  simp [selStep, hc, hb]

theorem selStep_keep (s : MgrState) (node : Int) (o : Option Nat) (b : Nat) (h : Nat)
    (hc : candB s node h = true) (hb : ¬ b > ctrOf ((s.devs h).ref_count)) :
    selStep s node (o, b) h = (o, b) := by
  simp [selStep, hc, hb]

theorem selStep_skip (s : MgrState) (node : Int) (o : Option Nat) (b : Nat) (h : Nat)
    (hc : candB s node h = false) :
    selStep s node (o, b) h = (o, b) := by
  simp [selStep, hc]

theorem foldl_selStep (s : MgrState) (node : Int) (l : List Nat) :
    ∀ o : Option Nat, ∀ b : Nat,
      l.foldl (selStep s node) (o, b) =
        match pickMin s node l with
        | none => (o, b)
        | some (g, c) => if b > c then (some g, c) else (o, b) := by
  induction l with
  | nil => intro o b; rfl
  | cons h t ih =>
      intro o b
      rw [List.foldl_cons]
      cases hc : candB s node h
      · rw [selStep_skip s node o b h hc, ih, pickMin_cons_neg s node h t hc]
      · rw [pickMin_cons_pos s node h t hc]
        by_cases hb : b > ctrOf ((s.devs h).ref_count)
        · rw [selStep_take s node o b h hc hb, ih]
          cases hp : pickMin s node t with
          | none =>
              show (some h, ctrOf ((s.devs h).ref_count)) =
                if b > ctrOf ((s.devs h).ref_count) then
                  (some h, ctrOf ((s.devs h).ref_count)) else (o, b)
              rw [if_pos hb]
          | some gc =>
              obtain ⟨g, c⟩ := gc
              by_cases hle : ctrOf ((s.devs h).ref_count) ≤ c
              · have hnc : ¬ ctrOf ((s.devs h).ref_count) > c := by omega
                show (if ctrOf ((s.devs h).ref_count) > c then (some g, c)
                      else (some h, ctrOf ((s.devs h).ref_count))) =
                  (match (if ctrOf ((s.devs h).ref_count) ≤ c then
                      some (h, ctrOf ((s.devs h).ref_count)) else some (g, c)) with
                    | none => (o, b)
                    | some (g, c) => if b > c then (some g, c) else (o, b))
                rw [if_neg hnc, if_pos hle]
                show (some h, ctrOf ((s.devs h).ref_count)) =
                  if b > ctrOf ((s.devs h).ref_count) then
                    (some h, ctrOf ((s.devs h).ref_count)) else (o, b)
                rw [if_pos hb]
              · have hgc : ctrOf ((s.devs h).ref_count) > c := by omega
                have hbc : b > c := by omega
                show (if ctrOf ((s.devs h).ref_count) > c then (some g, c)
                      else (some h, ctrOf ((s.devs h).ref_count))) =
                  (match (if ctrOf ((s.devs h).ref_count) ≤ c then
                      some (h, ctrOf ((s.devs h).ref_count)) else some (g, c)) with
                    | none => (o, b)
                    | some (g, c) => if b > c then (some g, c) else (o, b))
                rw [if_pos hgc, if_neg hle]
                show (some g, c) = if b > c then (some g, c) else (o, b)
                rw [if_pos hbc]
        · rw [selStep_keep s node o b h hc hb, ih]
          cases hp : pickMin s node t with
          | none =>
              show (o, b) = if b > ctrOf ((s.devs h).ref_count) then
                  (some h, ctrOf ((s.devs h).ref_count)) else (o, b)
              rw [if_neg hb]
          | some gc =>
              obtain ⟨g, c⟩ := gc
              by_cases hle : ctrOf ((s.devs h).ref_count) ≤ c
              · have hnc : ¬ b > c := by omega
                show (if b > c then (some g, c) else (o, b)) =
                  (match (if ctrOf ((s.devs h).ref_count) ≤ c then
                      some (h, ctrOf ((s.devs h).ref_count)) else some (g, c)) with
                    | none => (o, b)
                    | some (g, c) => if b > c then (some g, c) else (o, b))
                rw [if_neg hnc, if_pos hle]
                show (o, b) = if b > ctrOf ((s.devs h).ref_count) then
                    (some h, ctrOf ((s.devs h).ref_count)) else (o, b)
                rw [if_neg hb]
              · show (if b > c then (some g, c) else (o, b)) =
                  (match (if ctrOf ((s.devs h).ref_count) ≤ c then
                      some (h, ctrOf ((s.devs h).ref_count)) else some (g, c)) with
                    | none => (o, b)
                    | some (g, c) => if b > c then (some g, c) else (o, b))
                rw [if_neg hle]

theorem pickMin_eq_none (s : MgrState) (node : Int) (l : List Nat) :
    pickMin s node l = none ↔ l.filter (candB s node) = [] := by
  induction l with
  | nil => simp [pickMin]
  | cons h t ih =>
      cases hc : candB s node h
      · rw [pickMin_cons_neg s node h t hc]
        simp only [List.filter_cons, hc]
        simpa using ih
      · rw [pickMin_cons_pos s node h t hc]
        simp only [List.filter_cons, hc]
        cases hp : pickMin s node t with
        | none => simp
        | some gc =>
            obtain ⟨g, c⟩ := gc
            by_cases hle : ctrOf ((s.devs h).ref_count) ≤ c <;> simp [hle]

theorem pickMin_spec (s : MgrState) (node : Int) (l : List Nat) :
    ∀ g c, pickMin s node l = some (g, c) →
      c = ctrOf ((s.devs g).ref_count) ∧
      ∃ l1 l2, l.filter (candB s node) = l1 ++ g :: l2 ∧
        (∀ x ∈ l1, c < ctrOf ((s.devs x).ref_count)) ∧
        (∀ x ∈ l2, c ≤ ctrOf ((s.devs x).ref_count)) := by
  induction l with
  | nil => intro g c hp; cases hp
  | cons h t ih =>
      intro g c hp
      cases hc : candB s node h
      · rw [pickMin_cons_neg s node h t hc] at hp
        obtain ⟨hc', l1, l2, hsplit, hl1, hl2⟩ := ih g c hp
        refine ⟨hc', l1, l2, ?_, hl1, hl2⟩
        simp [List.filter_cons, hc, hsplit]
      · rw [pickMin_cons_pos s node h t hc] at hp
        cases hpt : pickMin s node t with
        | none =>
            rw [hpt] at hp
            have hp' : some (h, ctrOf ((s.devs h).ref_count)) = some (g, c) := hp
            injection hp' with hp2
            injection hp2 with hg hcv
            subst hg
            subst hcv
            have hfil : t.filter (candB s node) = [] := (pickMin_eq_none s node t).mp hpt
            refine ⟨rfl, [], [], ?_, by simp, by simp⟩
            simp [List.filter_cons, hc, hfil]
        | some gc =>
            obtain ⟨g', c'⟩ := gc
            rw [hpt] at hp
            obtain ⟨hc', l1, l2, hsplit, hl1, hl2⟩ := ih g' c' hpt
            by_cases hle : ctrOf ((s.devs h).ref_count) ≤ c'
            · have hp' : some (h, ctrOf ((s.devs h).ref_count)) = some (g, c) := by
                rw [← hp]
                show some (h, ctrOf ((s.devs h).ref_count)) =
                  if ctrOf ((s.devs h).ref_count) ≤ c' then
                    some (h, ctrOf ((s.devs h).ref_count)) else some (g', c')
                rw [if_pos hle]
              injection hp' with hp2
              injection hp2 with hg hcv
              subst hg
              subst hcv
              refine ⟨rfl, [], t.filter (candB s node), ?_, by simp, ?_⟩
              · simp [List.filter_cons, hc]
              · intro x hx
                rw [hsplit] at hx
                rcases List.mem_append.mp hx with hx | hx
                · have := hl1 x hx
                  omega
                · rcases List.mem_cons.mp hx with rfl | hx
                  · omega
                  · have := hl2 x hx
                    omega
            · have hp' : some (g', c') = some (g, c) := by
                rw [← hp]
                show some (g', c') =
                  if ctrOf ((s.devs h).ref_count) ≤ c' then
                    some (h, ctrOf ((s.devs h).ref_count)) else some (g', c')
                rw [if_neg hle]
              injection hp' with hp2
              injection hp2 with hg hcv
              subst hg
              subst hcv
              refine ⟨hc', h :: l1, l2, ?_, ?_, hl2⟩
              · simp [List.filter_cons, hc, hsplit]
              · intro x hx
                rcases List.mem_cons.mp hx with rfl | hx
                · omega
                · exact hl1 x hx

theorem ctrOf_small (r : ZMod (2 ^ 32)) (hr : r.val < 2 ^ 31) : ctrOf r = r.val := by
  unfold ctrOf toSigned32
  rw [if_pos hr]
  have h0 : (0 : Int) ≤ (r.val : Int) := Int.natCast_nonneg _
  have h1 : (r.val : Int) < 2 ^ 64 := by
    have : r.val < 2 ^ 64 := by omega
    exact_mod_cast this
  rw [Int.emod_eq_of_lt h0 h1]
  omega

theorem get_dev_node_fst (s : MgrState) (node : Int) (p : Bool) :
    (virtcrypto_get_dev_node s node p).1 = selectDev s node := by
  unfold virtcrypto_get_dev_node
  cases hsel : selectDev s node <;> rfl

theorem candB_started (s : MgrState) (node : Int) (h : Nat)
    (hc : candB s node h = true) : virtcrypto_dev_started (s.devs h) = true := by
  simp only [candB, Bool.and_eq_true] at hc
  exact hc.2

theorem selectDev_eq (s : MgrState) (node : Int) :
    selectDev s node =
      match pickMin s node s.table with
      | none => s.table.find? (fun h => virtcrypto_dev_started (s.devs h))
      | some (g, c) =>
          if ULONG_MAX > c then some g
          else s.table.find? (fun h => virtcrypto_dev_started (s.devs h)) := by
  unfold selectDev
  rw [foldl_selStep]
  cases hp : pickMin s node s.table with
  | none => rfl
  | some gc =>
      obtain ⟨g, c⟩ := gc
      by_cases hb : ULONG_MAX > c
      · simp only [if_pos hb]
      · simp only [if_neg hb]

/-- C4: under the data-model assumption that ref counters are non-negative
as 32-bit signed integers, whenever the candidate set (started devices on
the requested node or on no node) is non-empty, virtcrypto_get_dev_node
returns the candidate with minimum ref_count, ties broken by the first
position in traversal order (everything before the winner in the candidate
list is strictly more loaded, everything after it is at least as loaded);
and when the candidate set is empty it returns the first started device in
traversal order, regardless of load. -/
theorem get_dev_node_least_loaded (s : MgrState) (node : Int) (p : Bool)
    (hsane : ∀ h ∈ s.table, (s.devs h).ref_count.val < 2 ^ 31) :
    (s.table.filter (candB s node) ≠ [] →
      ∃ l1 g l2, s.table.filter (candB s node) = l1 ++ g :: l2 ∧
        (virtcrypto_get_dev_node s node p).1 = some g ∧
        (∀ x ∈ l1, (s.devs g).ref_count.val < (s.devs x).ref_count.val) ∧
        (∀ x ∈ l2, (s.devs g).ref_count.val ≤ (s.devs x).ref_count.val)) ∧
    (s.table.filter (candB s node) = [] →
      (virtcrypto_get_dev_node s node p).1 =
        s.table.find? (fun h => virtcrypto_dev_started (s.devs h))) := by
  rw [get_dev_node_fst, selectDev_eq]
  constructor
  · intro hne
    cases hp : pickMin s node s.table with
    | none => exact absurd ((pickMin_eq_none s node s.table).mp hp) hne
    | some gc =>
        obtain ⟨g, c⟩ := gc
        obtain ⟨hcv, l1, l2, hsplit, hl1, hl2⟩ := pickMin_spec s node s.table g c hp
        have hmemt : ∀ x, x ∈ s.table.filter (candB s node) → x ∈ s.table :=
          fun x hx => List.mem_of_mem_filter hx
        have hgmem : g ∈ s.table := by
          apply hmemt
          rw [hsplit]
          simp
        have hcg : ctrOf ((s.devs g).ref_count) = (s.devs g).ref_count.val :=
          ctrOf_small _ (hsane g hgmem)
        have hb : ULONG_MAX > c := by

          rw [hcv, hcg]
          have := hsane g hgmem
          unfold ULONG_MAX
          omega
        refine ⟨l1, g, l2, hsplit, ?_, ?_, ?_⟩
        · simp only [hp, if_pos hb]
        · intro x hx
          have hxt : x ∈ s.table := hmemt x (by rw [hsplit]; simp [hx])
          have hcx : ctrOf ((s.devs x).ref_count) = (s.devs x).ref_count.val :=
            ctrOf_small _ (hsane x hxt)
          have := hl1 x hx
          omega
        · intro x hx
          have hxt : x ∈ s.table := hmemt x (by rw [hsplit]; simp [hx])
          have hcx : ctrOf ((s.devs x).ref_count) = (s.devs x).ref_count.val :=
            ctrOf_small _ (hsane x hxt)
          have := hl2 x hx
          omega
  · intro hfil
    rw [(pickMin_eq_none s node s.table).mpr hfil]

/-- Concrete selection state: three started devices, handle 1 on node 0
with 2 holders, handle 2 on node 0 with 1 holder, handle 3 on no node
with 1 holder.  For node 0 all three are candidates and handle 2 is the
first least-loaded one. -/
def sW : MgrState :=
  { table := [1, 2, 3],
    devs := fun k =>
      if k = 1 then { ref_count := 2, dev_id := 0, status := 1, node := 0, pins := 0, unpins := 0 }
      else if k = 2 then { ref_count := 1, dev_id := 1, status := 1, node := 0, pins := 0, unpins := 0 }
      else if k = 3 then { ref_count := 1, dev_id := 2, status := 1, node := -1, pins := 0, unpins := 0 }
      else D0,
    num_devices := 3 }

/-- C4 witness: the concrete three-device state sW. -/
theorem get_dev_node_least_loaded_witness :
    (∀ h ∈ sW.table, (sW.devs h).ref_count.val < 2 ^ 31) ∧
    ((sW.table.filter (candB sW 0) ≠ [] →
      ∃ l1 g l2, sW.table.filter (candB sW 0) = l1 ++ g :: l2 ∧
        (virtcrypto_get_dev_node sW 0 true).1 = some g ∧
        (∀ x ∈ l1, (sW.devs g).ref_count.val < (sW.devs x).ref_count.val) ∧
        (∀ x ∈ l2, (sW.devs g).ref_count.val ≤ (sW.devs x).ref_count.val)) ∧
     (sW.table.filter (candB sW 0) = [] →
      (virtcrypto_get_dev_node sW 0 true).1 =
        sW.table.find? (fun h => virtcrypto_dev_started (sW.devs h)))) :=
  ⟨by decide, get_dev_node_least_loaded sW 0 true (by decide)⟩

/-- C5: virtcrypto_get_dev_node returns NULL exactly when the table holds
no started device, and whenever it returns a device that device is
started. -/
theorem get_dev_node_none_iff_no_started (s : MgrState) (node : Int) (p : Bool) :
    ((virtcrypto_get_dev_node s node p).1 = none ↔
      ∀ h ∈ s.table, virtcrypto_dev_started (s.devs h) = false) ∧
    (∀ h, (virtcrypto_get_dev_node s node p).1 = some h →
      virtcrypto_dev_started (s.devs h) = true) := by
  rw [get_dev_node_fst, selectDev_eq]
  constructor
  · constructor
    · intro hnone
      cases hp : pickMin s node s.table with
      | none =>
          simp only [hp] at hnone
          intro h hh
          have := List.find?_eq_none.mp hnone h hh
          simpa using this
      | some gc =>
          obtain ⟨g, c⟩ := gc
          simp only [hp] at hnone
          by_cases hb : ULONG_MAX > c
          · rw [if_pos hb] at hnone
            cases hnone
          · rw [if_neg hb] at hnone
            intro h hh
            have := List.find?_eq_none.mp hnone h hh
            simpa using this
    · intro hns
      have hfil : s.table.filter (candB s node) = [] := by
        apply List.filter_eq_nil_iff.mpr
        intro h hh
        have hst := hns h hh
        simp [candB, hst]
      rw [(pickMin_eq_none s node s.table).mpr hfil]
      apply List.find?_eq_none.mpr
      intro h hh
      simp [hns h hh]
  · intro h hsome
    cases hp : pickMin s node s.table with
    | none =>
        simp only [hp] at hsome
        have := List.find?_some hsome
        simpa using this
    | some gc =>
        obtain ⟨g, c⟩ := gc
        simp only [hp] at hsome
        by_cases hb : ULONG_MAX > c
        · rw [if_pos hb] at hsome
          injection hsome with hg
          subst hg
          obtain ⟨-, l1, l2, hsplit, -, -⟩ := pickMin_spec s node s.table g c hp
          have hgf : g ∈ s.table.filter (candB s node) := by
            rw [hsplit]; simp
          exact candB_started s node g (List.of_mem_filter hgf)
        · rw [if_neg hb] at hsome
          have := List.find?_some hsome
          simpa using this

/-- C3: when the selection scan finds a device, virtcrypto_get_dev_node
returns that device even when the acquire it performs on the caller's
behalf fails with a pin failure: the return value of virtcrypto_dev_get
is discarded, the selection is not retried, no NULL is produced, and the
reference count of the returned device is still incremented. -/
theorem get_dev_node_returns_despite_pin_failure (s : MgrState) (node : Int) (h : Nat)
    (hfind : selectDev s node = some h)
    (hfail : (virtcrypto_dev_get false (s.devs h)).2 = some GetErr.PinFailed) :
    (virtcrypto_get_dev_node s node false).1 = some h ∧
    ((virtcrypto_get_dev_node s node false).2.devs h).ref_count =
      (s.devs h).ref_count + 1 := by
  refine ⟨by rw [get_dev_node_fst]; exact hfind, ?_⟩
  unfold virtcrypto_get_dev_node
  rw [hfind]
  show ((setDev s.devs h (virtcrypto_dev_get false (s.devs h)).1) h).ref_count =
    (s.devs h).ref_count + 1
  rw [setDev_same]
  exact dev_get_ref false (s.devs h)

/-- Started idle device used by the selection witnesses. -/
def Dstarted : Device :=
  { ref_count := 0, dev_id := 0, status := 1, node := 0, pins := 0, unpins := 0 }

/-- Selection state with the single started idle device 5. -/
def sSel : MgrState :=
  { table := [5], devs := fun k => if k = 5 then Dstarted else D0, num_devices := 1 }

/-- C3 witness: in sSel the scan finds device 5 with ref_count 0, so the
acquire attempts the module pin; with the pin failing the handle is still
returned and its count is 1. -/
theorem get_dev_node_returns_despite_pin_failure_witness :
    selectDev sSel 0 = some 5 ∧
    (virtcrypto_dev_get false (sSel.devs 5)).2 = some GetErr.PinFailed ∧
    ((virtcrypto_get_dev_node sSel 0 false).1 = some 5 ∧
     ((virtcrypto_get_dev_node sSel 0 false).2.devs 5).ref_count =
       (sSel.devs 5).ref_count + 1) :=
  ⟨by decide, by decide,
   get_dev_node_returns_despite_pin_failure sSel 0 5 (by decide) (by decide)⟩

end VCrypto
